import Mathlib

/-!
Verification of the gomem process-memory library.

This file shallowly embeds the parts of the gomem source that the checked
properties talk about: the memory map and its two address-lookup routines
(package memory_map), the live Linux backend's address-validity gate
(process_linux/process.go), the snapshot backend (ProcessDump), the captured
blob (ProcessBlob), the pattern scanner (process_scan.go), the save/load
snapshot pipeline, the pointer-chain resolvers, and the POD materialiser.

Machine integers are modelled as Nat with an explicit reduction modulo 2^64
at the places where Go's uint64 arithmetic can wrap inside the embedded code
paths; bytes are Nat values below 256; Go byte slices are List Nat; Go
strings that are treated as byte containers are List Nat as well, and Go
strings treated as text (permission strings, file names) are String or
List Char.  Fallible Go functions returning (T, error) are embedded as
Except String T (or a structured error type when a claim talks about the
error's content), and Go's nil-able results as Option.
-/

namespace Gomem

/-- 2^64, the modulus of Go's uint64 arithmetic. -/
def u64Mod : Nat := 18446744073709551616

/-- binary.LittleEndian: decode a byte list as a little-endian natural
number (Uint16/Uint32/Uint64 are this applied to 2/4/8 bytes). -/
def leNat : List Nat → Nat
  | [] => 0
  | b :: bs => b + 256 * leNat bs

/-- The bytes of the foreign memory `mem` in the window `[addr, addr+n)`:
what a full successful read of `n` bytes at `addr` returns. -/
def memBytes (mem : Nat → Nat) (addr n : Nat) : List Nat :=
  (List.range n).map (fun i => mem (addr + i))

/-! ## Memory map (src/process/memory_map/memory_map.go) -/

/-- memory_map.MemoryMapItem: a region of the foreign address space. -/
structure MemoryMapItem where
  address : Nat
  size : Nat
  perms : String
  deriving Repr, DecidableEq

/-- The wrapped end address `item.Address + uint64(item.Size)` computed in
uint64 arithmetic, as the Go code does in every lookup. -/
def regionEnd (item : MemoryMapItem) : Nat :=
  (item.address + item.size) % u64Mod

/-- LinuxMemoryMap.IsReadablePerms: `len(perms) > 0 && perms[0] == 'r'`. -/
def isReadablePerms (perms : String) : Bool :=
  match perms.data with
  | [] => false
  | c :: _ => c = 'r'

/-- LinuxMemoryMap.IsWritablePerms: `len(perms) > 1 && perms[1] == 'w'`. -/
def isWritablePerms (perms : String) : Bool :=
  match perms.data with
  | _ :: c :: _ => c = 'w'
  | _ => false

/-- memory_map.IsValidAddress: linear scan, true iff some region covers
`addr` (`addr >= item.Address && addr < item.Address + item.Size`). -/
def mapIsValidAddress (addr : Nat) (memoryMap : List MemoryMapItem) : Bool :=
  memoryMap.any (fun item => item.address ≤ addr && addr < regionEnd item)

/-- memory_map.GetMemoryRegionForAddress: linear scan returning the first
region that covers `addr`, or nothing. -/
def getMemoryRegionForAddress (addr : Nat) (memoryMap : List MemoryMapItem) :
    Option MemoryMapItem :=
  memoryMap.find? (fun item => item.address ≤ addr && addr < regionEnd item)

/-- The loop of Go's sort.Search: binary search on `[i, j)`, assuming the
predicate is false then true; `h := (i+j)/2`, `!f(h)` moves `i` to `h+1`,
otherwise `j` moves to `h`.  The loop runs at most `j - i` times; `fuel`
bounds the iteration count structurally and is always called with at
least that much, so the embedding coincides with the loop. -/
def sortSearchAux : Nat → (Nat → Bool) → Nat → Nat → Nat
  | 0, _, i, _ => i
  | fuel + 1, f, i, j =>
    if i < j then
      if f ((i + j) / 2) then sortSearchAux fuel f i ((i + j) / 2)
      else sortSearchAux fuel f ((i + j) / 2 + 1) j
    else i

/-- sort.Search(n, f). -/
def sortSearch (n : Nat) (f : Nat → Bool) : Nat := sortSearchAux n f 0 n

/-- A throwaway region used only as the default of out-of-range indexing;
sort.Search never probes outside `[0, n)`, so it is never consulted. -/
def dummyRegion : MemoryMapItem := ⟨0, 0, ""⟩

/-- memory_map.IsValidAddress2: binary-search the first region with
`Address + Size > addr`, then return it when its `Address <= addr`. -/
def isValidAddress2 (addr : Nat) (memoryMap : List MemoryMapItem) :
    Option MemoryMapItem :=
  let i := sortSearch memoryMap.length
    (fun k => regionEnd (memoryMap.getD k dummyRegion) > addr)
  if i < memoryMap.length ∧ (memoryMap.getD i dummyRegion).address ≤ addr then
    some (memoryMap.getD i dummyRegion)
  else
    none

/-! ## Live backend validity gate (src/process_linux/process.go) -/

/-- LinuxProcess.isValidAddressInternal: the two hard windows
(`addr <= 0x10000`, `addr > 0x700000000000`) and then the binary-search
lookup plus the readable-permission check. -/
def linuxIsValidAddressInternal (mm : List MemoryMapItem) (addr : Nat) : Bool :=
  if addr ≤ 0x10000 then false
  else if addr > 0x700000000000 then false
  else
    match isValidAddress2 addr mm with
    | some item => isReadablePerms item.perms
    | none => false

/-! ## C3: the binary search agrees with the linear scan -/

/-- Whether a region covers an address, the test both lookups use. -/
def covers (item : MemoryMapItem) (addr : Nat) : Bool :=
  item.address ≤ addr && addr < regionEnd item

/-- A memory map is sorted by start with no overlapping regions:
each region ends (in true, unwrapped arithmetic) no later than the next
one starts. -/
def SortedDisjoint (mm : List MemoryMapItem) : Prop :=
  List.Chain' (fun a b => a.address + a.size ≤ b.address) mm

/-- No region's true end overflows uint64 (true of every map parsed from a
64-bit address-space description). -/
def NoEndWrap (mm : List MemoryMapItem) : Prop :=
  ∀ r ∈ mm, r.address + r.size < u64Mod

theorem sortSearchAux_spec (f : Nat → Bool) (n : Nat)
    (hmono : ∀ a b, a ≤ b → b < n → f a = true → f b = true) :
    ∀ d i j, j - i ≤ d → i ≤ j → j ≤ n →
      (∀ k, k < i → f k = false) →
      (∀ k, j ≤ k → k < n → f k = true) →
      (∀ k, k < sortSearchAux d f i j → f k = false) ∧
      (∀ k, sortSearchAux d f i j ≤ k → k < n → f k = true) ∧
      i ≤ sortSearchAux d f i j ∧ sortSearchAux d f i j ≤ j := by
  intro d
  induction d with
  | zero =>
    intro i j hd hij hjn hlo hhi
    have hji : i = j := by omega
    simp only [sortSearchAux]
    exact ⟨hlo, fun k hk hkn => hhi k (by omega) hkn, le_refl i, by omega⟩
  | succ d ih =>
    intro i j hd hij hjn hlo hhi
    by_cases hij2 : i < j
    · simp only [sortSearchAux]
      rw [if_pos hij2]
      have hmlt : (i + j) / 2 < j := by omega
      have hmge : i ≤ (i + j) / 2 := by omega
      cases hfm : f ((i + j) / 2) with
      | true =>
        rw [if_pos rfl]
        obtain ⟨h1, h2, h3, h4⟩ := ih i ((i + j) / 2) (by omega) (by omega)
          (by omega) hlo (fun k hk hkn => hmono ((i + j) / 2) k hk hkn hfm)
        exact ⟨h1, h2, h3, by omega⟩
      | false =>
        rw [if_neg (by simp)]
        have hlo2 : ∀ k, k < (i + j) / 2 + 1 → f k = false := by
          intro k hk
          rcases Nat.lt_or_ge k i with hki | hki
          · exact hlo k hki
          · cases hfk : f k with
            | false => rfl
            | true =>
              have hcontra := hmono k ((i + j) / 2) (by omega) (by omega) hfk
              simp [hfm] at hcontra
        obtain ⟨h1, h2, h3, h4⟩ := ih ((i + j) / 2 + 1) j (by omega) (by omega)
          hjn hlo2 hhi
        exact ⟨h1, h2, by omega, h4⟩
    · simp only [sortSearchAux]
      rw [if_neg hij2]
      have hji : i = j := by omega
      exact ⟨hlo, fun k hk hkn => hhi k (by omega) hkn, le_refl i, by omega⟩

theorem find?_eq_some_of_minimal {α : Type} (p : α → Bool) (d : α) :
    ∀ (l : List α) (t : Nat), t < l.length → p (l.getD t d) = true →
      (∀ k, k < t → p (l.getD k d) = false) →
      l.find? p = some (l.getD t d) := by
  intro l
  induction l with
  | nil => intro t ht; simp at ht
  | cons x xs ihx =>
    intro t ht hp hmin
    cases t with
    | zero =>
      simp only [List.getD_cons_zero] at hp ⊢
      simp [List.find?, hp]
    | succ s =>
      have hx : p x = false := by
        have := hmin 0 (Nat.succ_pos s)
        simpa using this
      simp only [List.getD_cons_succ] at hp ⊢
      simp only [List.find?, hx]
      exact ihx s (by simpa using ht) hp
        (fun k hk => by
          have := hmin (k + 1) (by omega)
          simpa using this)

theorem find?_eq_none_of_all {α : Type} (p : α → Bool) (d : α) :
    ∀ (l : List α), (∀ k, k < l.length → p (l.getD k d) = false) →
      l.find? p = none := by
  intro l
  induction l with
  | nil => intro _; rfl
  | cons x xs ihx =>
    intro h
    have hx : p x = false := by simpa using h 0 (by simp)
    simp only [List.find?, hx]
    exact ihx (fun k hk => by
      have := h (k + 1) (by simpa using Nat.succ_lt_succ hk)
      simpa using this)

theorem chain_adjacent {mm : List MemoryMapItem} (hch : SortedDisjoint mm) :
    ∀ k, k + 1 < mm.length →
      (mm.getD k dummyRegion).address + (mm.getD k dummyRegion).size ≤
      (mm.getD (k + 1) dummyRegion).address := by
  intro k hk
  have h := List.chain'_iff_get.1 hch k (by omega)
  have h1 : mm.getD k dummyRegion = mm.get ⟨k, by omega⟩ := by
    simp [List.getD_eq_getElem?_getD, List.getElem?_eq_getElem (l := mm) (by omega : k < mm.length)]
  have h2 : mm.getD (k + 1) dummyRegion = mm.get ⟨k + 1, by omega⟩ := by
    simp [List.getD_eq_getElem?_getD, List.getElem?_eq_getElem (l := mm) hk]
  rw [h1, h2]
  exact h

theorem chain_addr_mono {mm : List MemoryMapItem} (hch : SortedDisjoint mm) :
    ∀ a b, a ≤ b → b < mm.length →
      (mm.getD a dummyRegion).address ≤ (mm.getD b dummyRegion).address := by
  intro a b hab hb
  induction b with
  | zero => have : a = 0 := by omega
            simp [this]
  | succ s ihs =>
    rcases Nat.lt_or_ge a (s + 1) with h | h
    · have step := chain_adjacent hch s hb
      have := ihs (by omega) (by omega)
      omega
    · have : a = s + 1 := by omega
      simp [this]

theorem chain_end_mono {mm : List MemoryMapItem} (hch : SortedDisjoint mm) :
    ∀ a b, a ≤ b → b < mm.length →
      (mm.getD a dummyRegion).address + (mm.getD a dummyRegion).size ≤
      (mm.getD b dummyRegion).address + (mm.getD b dummyRegion).size := by
  intro a b hab hb
  induction b with
  | zero => have : a = 0 := by omega
            simp [this]
  | succ s ihs =>
    rcases Nat.lt_or_ge a (s + 1) with h | h
    · have step := chain_adjacent hch s hb
      have := ihs (by omega) (by omega)
      omega
    · have : a = s + 1 := by omega
      simp [this]

theorem getD_mem {α : Type} (l : List α) (k : Nat) (d : α) (hk : k < l.length) :
    l.getD k d ∈ l := by
  rw [List.getD_eq_getElem?_getD, List.getElem?_eq_getElem hk]
  exact List.getElem_mem hk

theorem regionEnd_of_noWrap {mm : List MemoryMapItem} (hnw : NoEndWrap mm)
    {r : MemoryMapItem} (hr : r ∈ mm) : regionEnd r = r.address + r.size := by
  exact Nat.mod_eq_of_lt (hnw r hr)

/-- C3: on a map that is sorted by region start with no overlapping regions
(and whose region ends do not overflow uint64), the binary-search lookup
IsValidAddress2 returns exactly what the linear scan
GetMemoryRegionForAddress returns, at every address: the covering region
when one exists and nothing otherwise. -/
theorem c3_binary_search_agrees_linear (mm : List MemoryMapItem) (addr : Nat)
    (hch : SortedDisjoint mm) (hnw : NoEndWrap mm) :
    isValidAddress2 addr mm = getMemoryRegionForAddress addr mm := by
  classical
  set n := mm.length with hn
  set f : Nat → Bool := fun k => regionEnd (mm.getD k dummyRegion) > addr with hf
  have hend : ∀ k, k < n → regionEnd (mm.getD k dummyRegion) =
      (mm.getD k dummyRegion).address + (mm.getD k dummyRegion).size := by
    intro k hk
    exact regionEnd_of_noWrap hnw (getD_mem mm k dummyRegion hk)
  have hmono : ∀ a b, a ≤ b → b < n → f a = true → f b = true := by
    intro a b hab hb ha
    have hm := chain_end_mono hch a b hab hb
    simp only [hf, decide_eq_true_eq] at ha ⊢
    rw [hend a (by omega)] at ha
    rw [hend b hb]
    omega
  have hspec := sortSearchAux_spec f n hmono n 0 n (by omega) (by omega)
    (le_refl n) (by omega) (by omega)
  set r := sortSearchAux n f 0 n with hr
  obtain ⟨hlo, hhi, -, hrn⟩ := hspec
  have hnotcov_lo : ∀ k, k < r → covers (mm.getD k dummyRegion) addr = false := by
    intro k hk
    have h1 := hlo k hk
    simp only [hf, decide_eq_false_iff_not, Nat.not_lt] at h1
    simp only [covers, Bool.and_eq_false_iff]
    right
    simp only [decide_eq_false_iff_not, Nat.not_lt]
    exact h1
  unfold isValidAddress2 getMemoryRegionForAddress
  rw [show sortSearch mm.length
      (fun k => regionEnd (mm.getD k dummyRegion) > addr) = r from rfl]
  by_cases hcase : r < mm.length ∧ (mm.getD r dummyRegion).address ≤ addr
  · rw [if_pos hcase]
    have hfr : f r = true := hhi r (le_refl r) hcase.1
    simp only [hf, decide_eq_true_eq] at hfr
    have hcov : (fun item => item.address ≤ addr && addr < regionEnd item)
        (mm.getD r dummyRegion) = true := by
      simp only [Bool.and_eq_true, decide_eq_true_eq]
      exact ⟨hcase.2, hfr⟩
    exact (find?_eq_some_of_minimal _ dummyRegion mm r hcase.1 hcov
      (fun k hk => by simpa [covers] using hnotcov_lo k hk)).symm
  · rw [if_neg hcase]
    refine (find?_eq_none_of_all _ dummyRegion mm ?_).symm
    intro k hk
    rcases Nat.lt_or_ge k r with hkr | hkr
    · simpa [covers] using hnotcov_lo k hkr
    · have hrlt : r < mm.length := by omega
      have haddr : addr < (mm.getD r dummyRegion).address := by
        rcases Nat.lt_or_ge addr (mm.getD r dummyRegion).address with h | h
        · exact h
        · exact absurd ⟨hrlt, h⟩ hcase
      have hmonoa := chain_addr_mono hch r k hkr hk
      simp only [Bool.and_eq_false_iff]
      left
      simp only [decide_eq_false_iff_not]
      omega

/-- Witness for c3: a concrete sorted two-region map, the lookup at an
address inside the second region. -/
theorem c3_binary_search_agrees_linear_witness :
    isValidAddress2 0x5005 [⟨0x1000, 0x1000, "r-xp"⟩, ⟨0x5000, 0x100, "rw-p"⟩] =
      getMemoryRegionForAddress 0x5005
        [⟨0x1000, 0x1000, "r-xp"⟩, ⟨0x5000, 0x100, "rw-p"⟩] :=
  c3_binary_search_agrees_linear _ _
    (by constructor <;> simp)
    (by intro r hr; fin_cases hr <;> simp [u64Mod])

/-! ## Captured blob (src/process_blob/blob.go) -/

/-- process_blob.ProcessBlob: a captured byte buffer tagged with the
absolute foreign address it was read from. -/
structure ProcessBlob where
  baseaddress : Nat
  data : List Nat
  deriving Repr, DecidableEq

/-- ProcessBlob.ReadMemory: range check against the captured window, then
slice.  (The Go comparisons are on uint values; inside the window they
cannot wrap, and the offset subtraction only happens after
`addr >= baseaddress` has been established.) -/
def blobReadMemory (p : ProcessBlob) (addr size : Nat) :
    Except String (List Nat) :=
  if addr < p.baseaddress ∨ addr + size > p.baseaddress + p.data.length then
    Except.error "address out of bounds"
  else
    Except.ok ((p.data.drop (addr - p.baseaddress)).take size)

/-- The null-terminator loop shared by every ReadNTS implementation:
return `data[:i]` for the first index `i` holding 0, the whole buffer
when no byte is 0. -/
def ntsTruncate : List Nat → List Nat
  | [] => []
  | b :: bs => if b = 0 then [] else b :: ntsTruncate bs

/-- ProcessBlob.ReadNTS. -/
def blobReadNTS (p : ProcessBlob) (addr maxLength : Nat) :
    Except String (List Nat) :=
  if maxLength = 0 then Except.ok []
  else
    match blobReadMemory p addr maxLength with
    | Except.error e => Except.error e
    | Except.ok data => Except.ok (ntsTruncate data)

/-- ProcessBlob.ReadPOINTER: 8 little-endian bytes, rejecting address 0. -/
def blobReadPOINTER (p : ProcessBlob) (addr : Nat) : Except String Nat :=
  if addr = 0 then Except.error "invalid address: 0x0"
  else
    match blobReadMemory p addr 8 with
    | Except.error e => Except.error e
    | Except.ok data => Except.ok (leNat data)

/-- ProcessBlob.ReadPOINTER2: ReadPOINTER with every failure (zero address,
out-of-canonical-range address, read error) masked to 0. -/
def blobReadPOINTER2 (p : ProcessBlob) (addr : Nat) : Nat :=
  if addr = 0 then 0
  else if addr > 0x7FFFFFFFFFFF then 0
  else
    match blobReadPOINTER p addr with
    | Except.error _ => 0
    | Except.ok ptr => ptr

/-- ProcessBlob.ReadBlob: nil view and nil error for size 0, otherwise a
fresh view based at `addr`. -/
def blobReadBlob (p : ProcessBlob) (addr size : Nat) :
    Except String (Option ProcessBlob) :=
  if size = 0 then Except.ok none
  else
    match blobReadMemory p addr size with
    | Except.error e => Except.error e
    | Except.ok data =>
      if data.length < size then Except.error "read less data than requested"
      else Except.ok (some ⟨addr, data.take size⟩)

/-- WindowsProcess.ReadBlob (src/unnamed/part_011).  The live Windows
backend's ReadMemory method is not among the provided sources; ReadBlob
only consumes its result, so it is abstracted as the oracle
`readMemoryFn`. -/
def windowsReadBlob (readMemoryFn : Nat → Nat → Except String (List Nat))
    (addr size : Nat) : Except String (Option ProcessBlob) :=
  if size = 0 then Except.ok none
  else
    match readMemoryFn addr size with
    | Except.error e => Except.error e
    | Except.ok data =>
      if data.length < size then Except.error "read less data than requested"
      else Except.ok (some ⟨addr, data.take size⟩)

/-! ## Snapshot backend (src/unnamed/part_007, ProcessDump) -/

/-- process_blob.ProcessDump: a loaded snapshot.  `blobs` models the Go map
`Blobs map[uint64][]byte` as an association list (lookup by first match;
the maps built by Load have pairwise distinct keys in every run the
theorems below talk about). -/
structure ProcessDump where
  pid : Nat
  name : String
  memoryMap : List MemoryMapItem
  blobs : List (Nat × List Nat)
  deriving Repr

/-- Lookup in the `Blobs` map. -/
def lookupBlob (blobs : List (Nat × List Nat)) (a : Nat) : Option (List Nat) :=
  (blobs.find? (fun kv => kv.1 == a)).map (fun kv => kv.2)

/-- ProcessDump.IsValidAddress: plain memory_map.IsValidAddress on the
loaded map — no hard windows and no permission check. -/
def dumpIsValidAddress (d : ProcessDump) (addr : Nat) : Bool :=
  mapIsValidAddress addr d.memoryMap

/-- ProcessDump.ReadMemory: find the covering region by linear scan, fetch
its blob, bounds-check, slice.  (`offset := addr - region.Address` is only
computed after the covering check has established
`region.Address <= addr`, so the Nat subtraction matches the uint64 one.) -/
def dumpReadMemory (d : ProcessDump) (addr size : Nat) :
    Except String (List Nat) :=
  match getMemoryRegionForAddress addr d.memoryMap with
  | none => Except.error "address not mapped"
  | some region =>
    match lookupBlob d.blobs region.address with
    | none => Except.error "no data for region"
    | some data =>
      if addr - region.address ≥ data.length then
        Except.error "address out of bounds of region data"
      else if addr - region.address + size > data.length then
        Except.error "read size exceeds region data bounds"
      else
        Except.ok ((data.drop (addr - region.address)).take size)

/-- ProcessDump.ReadNTS: same null-terminator loop over ReadMemory. -/
def dumpReadNTS (d : ProcessDump) (addr maxLength : Nat) :
    Except String (List Nat) :=
  if maxLength = 0 then Except.ok []
  else
    match dumpReadMemory d addr maxLength with
    | Except.error e => Except.error e
    | Except.ok data => Except.ok (ntsTruncate data)

/-! ## C4: the hard address windows -/

/-- C4 counterexample: the snapshot backend's IsValidAddress accepts an
address far below the low-page window 0x10000 as soon as the loaded map
contains a region covering it — the hard windows are not applied there,
contradicting the claim that every backend rejects such addresses
regardless of the map. -/
theorem c4_dump_low_address_counterexample :
    dumpIsValidAddress ⟨0, "", [⟨0x20, 0x10, "r--p"⟩], []⟩ 0x25 = true ∧
    (0x25 : Nat) ≤ 0x10000 := by
  constructor
  · rfl
  · norm_num

/-- C4 (amended): the LIVE Linux backend's validity gate
isValidAddressInternal returns false for every address in the two hard
windows, whatever the map contains; the snapshot backend's IsValidAddress
has no such windows and consults only the map. -/
theorem c4_linux_hard_windows (mm : List MemoryMapItem) (addr : Nat)
    (h : addr ≤ 0x10000 ∨ 0x700000000000 < addr) :
    linuxIsValidAddressInternal mm addr = false := by
  unfold linuxIsValidAddressInternal
  rcases h with h | h
  · rw [if_pos h]
  · rw [if_neg (by omega), if_pos h]

/-- Witness for c4: a low address over a map that coincidentally covers it. -/
theorem c4_linux_hard_windows_witness :
    linuxIsValidAddressInternal [⟨0x20, 0x10, "rwxp"⟩] 0x25 = false :=
  c4_linux_hard_windows [⟨0x20, 0x10, "rwxp"⟩] 0x25 (Or.inl (by norm_num))

/-! ## C10: ReadBlob with size zero -/

/-- C10: both the captured-blob ReadBlob and the live Windows backend's
ReadBlob return the (nil view, nil error) pair for size 0, whatever the
address and whatever the underlying memory holds. -/
theorem c10_readblob_zero_size_nil_nil (p : ProcessBlob) (addr : Nat)
    (readMemoryFn : Nat → Nat → Except String (List Nat)) (waddr : Nat) :
    blobReadBlob p addr 0 = Except.ok none ∧
    windowsReadBlob readMemoryFn waddr 0 = Except.ok none :=
  ⟨rfl, rfl⟩

/-! ## C8: the scanner's matches are closed under wildcard replacement -/

/-- The inner loop of findPatternMatches at window offset `i`: every
pattern position is either masked out (`mask[j] == 0`) or agrees on the
mask-selected bits. -/
def matchesAtOffset (data pattern mask : List Nat) (i : Nat) : Bool :=
  (List.range pattern.length).all (fun j =>
    mask.getD j 0 == 0 ||
      (Nat.land (data.getD (i + j) 0) (mask.getD j 0) ==
        Nat.land (pattern.getD j 0) (mask.getD j 0)))

/-- findPatternMatches (src/process_linux/process_scan.go): all window
offsets `0 .. len(data)-len(pattern)` whose window matches. -/
def findPatternMatches (data pattern mask : List Nat) : List Nat :=
  if data.length < pattern.length then []
  else (List.range (data.length - pattern.length + 1)).filter
    (matchesAtOffset data pattern mask)

/-- C8: for pattern/mask of equal non-zero length, a match at offset `i`
survives replacing the byte at any wildcard position `j` of the matching
window by any other byte value. -/
theorem c8_wildcard_closure (data pattern mask : List Nat)
    (hlen : mask.length = pattern.length) (hne : pattern ≠ [])
    (i j b : Nat) (hj : j < pattern.length) (hwild : mask.getD j 0 = 0)
    (hmatch : i ∈ findPatternMatches data pattern mask) :
    i ∈ findPatternMatches (data.set (i + j) b) pattern mask := by
  unfold findPatternMatches at hmatch ⊢
  by_cases hlt : data.length < pattern.length
  · rw [if_pos hlt] at hmatch
    exact absurd hmatch (List.not_mem_nil i)
  · rw [if_neg hlt] at hmatch
    rw [List.length_set, if_neg hlt]
    rw [List.mem_filter] at hmatch ⊢
    obtain ⟨hrange, hmat⟩ := hmatch
    refine ⟨hrange, ?_⟩
    unfold matchesAtOffset at hmat ⊢
    rw [List.all_eq_true] at hmat ⊢
    intro j2 hj2
    have hj2r := List.mem_range.1 hj2
    by_cases hjj : j2 = j
    · subst hjj
      simp only [Bool.or_eq_true, beq_iff_eq]
      exact Or.inl hwild
    · have horig := hmat j2 hj2
      have hget : (data.set (i + j) b).getD (i + j2) 0 = data.getD (i + j2) 0 := by
        rw [List.getD_eq_getElem?_getD, List.getD_eq_getElem?_getD,
          List.getElem?_set_ne (by omega)]
      rw [hget]
      exact horig

/-- Witness for c8: pattern 0x01 ?? over [1,2,3] matches at 0, and stays a
match after the wildcard byte is replaced by 9. -/
theorem c8_wildcard_closure_witness :
    0 ∈ findPatternMatches ([1, 2, 3].set (0 + 1) 9) [1, 0] [0xFF, 0] :=
  c8_wildcard_closure [1, 2, 3] [1, 0] [0xFF, 0] (by decide) (by decide)
    0 1 9 (by decide) (by decide) (by decide)

/-! ## C7: ReadNTS -/

theorem ntsTruncate_eq_takeWhile (l : List Nat) :
    ntsTruncate l = l.takeWhile (fun b => b ≠ 0) := by
  induction l with
  | nil => rfl
  | cons b bs ih =>
    by_cases hb : b = 0
    · subst hb
      simp [ntsTruncate, List.takeWhile]
    · simp [ntsTruncate, hb, List.takeWhile, ih]

theorem ntsTruncate_eq_nil_iff (l : List Nat) (hne : l ≠ []) :
    ntsTruncate l = [] ↔ l.getD 0 0 = 0 := by
  cases l with
  | nil => exact absurd rfl hne
  | cons b bs =>
    by_cases hb : b = 0
    · subst hb
      simp [ntsTruncate]
    · simp [ntsTruncate, hb]

theorem blobReadMemory_length (p : ProcessBlob) (addr size : Nat)
    (bs : List Nat) (h : blobReadMemory p addr size = Except.ok bs) :
    bs.length = size := by
  unfold blobReadMemory at h
  by_cases hc : addr < p.baseaddress ∨ addr + size > p.baseaddress + p.data.length
  · rw [if_pos hc] at h
    exact absurd h (by simp)
  · rw [if_neg hc] at h
    have hbs : bs = (p.data.drop (addr - p.baseaddress)).take size := by
      cases h
      rfl
    subst hbs
    rw [List.length_take, List.length_drop]
    omega

theorem dumpReadMemory_length (d : ProcessDump) (addr size : Nat)
    (bs : List Nat) (h : dumpReadMemory d addr size = Except.ok bs) :
    bs.length = size := by
  unfold dumpReadMemory at h
  split at h
  · exact absurd h (by simp)
  · split at h
    · exact absurd h (by simp)
    · split at h
      · exact absurd h (by simp)
      · split at h
        · exact absurd h (by simp)
        · cases h
          rw [List.length_take, List.length_drop]
          omega

/-- C7 counterexample: with max length 0, ReadNTS returns the empty string
with a nil error even though the first byte at the address is not the null
byte — the claimed equivalence fails at max = 0. -/
theorem c7_readnts_zero_max_counterexample :
    blobReadNTS ⟨0x1000, [0x41]⟩ 0x1000 0 = Except.ok [] ∧
    (ProcessBlob.mk 0x1000 [0x41]).data.getD 0 0 ≠ 0 := by
  constructor
  · rfl
  · decide

/-- C7 (amended): for every max length of at least 1 whose read succeeds,
both the captured-blob and the snapshot ReadNTS return exactly the prefix
of the read bytes up to (excluding) the first null byte — all bytes when
none is null — and the result is empty exactly when the first byte is
null. -/
theorem c7_readnts_prefix (p : ProcessBlob) (d : ProcessDump)
    (addr daddr maxLen dmaxLen : Nat)
    (hmax : 1 ≤ maxLen) (hdmax : 1 ≤ dmaxLen) (bs ds : List Nat)
    (hb : blobReadMemory p addr maxLen = Except.ok bs)
    (hd : dumpReadMemory d daddr dmaxLen = Except.ok ds) :
    blobReadNTS p addr maxLen = Except.ok (bs.takeWhile (fun x => x ≠ 0)) ∧
    (blobReadNTS p addr maxLen = Except.ok [] ↔ bs.getD 0 0 = 0) ∧
    dumpReadNTS d daddr dmaxLen = Except.ok (ds.takeWhile (fun x => x ≠ 0)) ∧
    (dumpReadNTS d daddr dmaxLen = Except.ok [] ↔ ds.getD 0 0 = 0) := by
  have hbne : bs ≠ [] := by
    have := blobReadMemory_length p addr maxLen bs hb
    intro hc
    subst hc
    simp at this
    omega
  have hdne : ds ≠ [] := by
    have := dumpReadMemory_length d daddr dmaxLen ds hd
    intro hc
    subst hc
    simp at this
    omega
  have e1 : blobReadNTS p addr maxLen = Except.ok (ntsTruncate bs) := by
    unfold blobReadNTS
    rw [if_neg (by omega), hb]
  have e2 : dumpReadNTS d daddr dmaxLen = Except.ok (ntsTruncate ds) := by
    unfold dumpReadNTS
    rw [if_neg (by omega), hd]
  refine ⟨?_, ?_, ?_, ?_⟩
  · rw [e1, ntsTruncate_eq_takeWhile]
  · rw [e1]
    constructor
    · intro h
      have h2 : ntsTruncate bs = [] := by simpa using h
      exact (ntsTruncate_eq_nil_iff bs hbne).1 h2
    · intro h
      rw [(ntsTruncate_eq_nil_iff bs hbne).2 h]
  · rw [e2, ntsTruncate_eq_takeWhile]
  · rw [e2]
    constructor
    · intro h
      have h2 : ntsTruncate ds = [] := by simpa using h
      exact (ntsTruncate_eq_nil_iff ds hdne).1 h2
    · intro h
      rw [(ntsTruncate_eq_nil_iff ds hdne).2 h]

/-- Witness for c7: a two-byte blob "A\0" and a one-region dump holding
"B". -/
theorem c7_readnts_prefix_witness :
    blobReadNTS ⟨0x1000, [0x41, 0, 0x42]⟩ 0x1000 3 =
      Except.ok ([0x41, 0, 0x42].takeWhile (fun x => x ≠ 0)) ∧
    (blobReadNTS ⟨0x1000, [0x41, 0, 0x42]⟩ 0x1000 3 = Except.ok [] ↔
      ([0x41, 0, 0x42] : List Nat).getD 0 0 = 0) ∧
    dumpReadNTS ⟨0, "", [⟨0x2000, 1, "r--p"⟩], [(0x2000, [0x42])]⟩ 0x2000 1 =
      Except.ok ([0x42].takeWhile (fun x => x ≠ 0)) ∧
    (dumpReadNTS ⟨0, "", [⟨0x2000, 1, "r--p"⟩], [(0x2000, [0x42])]⟩ 0x2000 1 =
      Except.ok [] ↔ ([0x42] : List Nat).getD 0 0 = 0) :=
  c7_readnts_prefix ⟨0x1000, [0x41, 0, 0x42]⟩
    ⟨0, "", [⟨0x2000, 1, "r--p"⟩], [(0x2000, [0x42])]⟩
    0x1000 0x2000 3 1 (by norm_num) (by norm_num)
    [0x41, 0, 0x42] [0x42] (by rfl) (by rfl)

/-! ## C1: the pointer-chain resolvers

LinuxProcess.ReadPointerChain (src/unnamed/part_001) only touches the
receiver through ReadPOINTER2, IsValidAddress and ReadBlob; those three
methods are not under src/ for the Linux backend, so they are abstracted
as an oracle record and the chain logic is translated over it. -/

/-- The three backend methods the Linux chain resolver calls. -/
structure LinuxChainIO where
  readPOINTER2 : Nat → Nat
  isValidAddress : Nat → Bool
  readBlob : Nat → Nat → Except String (Option ProcessBlob)

/-- The structured content of the chain resolver's errors: which step
failed and how (the Go errors are strings carrying exactly this data). -/
inductive ChainError where
  | nullAtStep (i : Nat)
  | invalidAtStep (i : Nat)
  | finalRead (msg : String)
  deriving Repr, DecidableEq

/-- The loop of LinuxProcess.ReadPointerChain: dereference at
`current + offsets[i]` for every offset but the last (`off` is the next
offset to handle, `rest` the ones after it), then read `size` bytes at
`current + lastOffset` without dereferencing. -/
def linuxChainLoop (io : LinuxChainIO) (size : Nat) :
    Nat → Nat → Nat → List Nat → Except ChainError (Option ProcessBlob)
  | _, current, off, [] =>
    match io.readBlob (current + off) size with
    | Except.error e => Except.error (ChainError.finalRead e)
    | Except.ok blob => Except.ok blob
  | i, current, off, off2 :: rest =>
    if io.readPOINTER2 (current + off) = 0 then
      Except.error (ChainError.nullAtStep i)
    else if io.isValidAddress (io.readPOINTER2 (current + off)) = false then
      Except.error (ChainError.invalidAtStep i)
    else
      linuxChainLoop io size (i + 1) (io.readPOINTER2 (current + off)) off2 rest

/-- LinuxProcess.ReadPointerChain. -/
def linuxReadPointerChain (io : LinuxChainIO) (base size : Nat)
    (offsets : List Nat) : Except ChainError (Option ProcessBlob) :=
  match offsets with
  | [] =>
    match io.readBlob base size with
    | Except.error e => Except.error (ChainError.finalRead e)
    | Except.ok blob => Except.ok blob
  | off :: rest => linuxChainLoop io size 0 base off rest

/-- `offsets[k-1]`, the final raw displacement of a chain. -/
def lastOffset : List Nat → Nat
  | [] => 0
  | [x] => x
  | _ :: x :: xs => lastOffset (x :: xs)

/-- `offsets[0..k-1)`, the dereferenced hops of a chain. -/
def frontOffsets : List Nat → List Nat
  | [] => []
  | [_] => []
  | x :: y :: xs => x :: frontOffsets (y :: xs)

/-- The resolver exactly as §4.7 of the specification words it: walk the
front offsets (`p := read_ptr(current + offsets[i])`, failing with the
step index on a zero or unmapped pointer), then read `size` bytes at
`current + offsets[k-1]`. -/
def specChainWalk (io : LinuxChainIO) :
    Nat → Nat → List Nat → Except ChainError Nat
  | _, current, [] => Except.ok current
  | i, current, off :: rest =>
    if io.readPOINTER2 (current + off) = 0 then
      Except.error (ChainError.nullAtStep i)
    else if io.isValidAddress (io.readPOINTER2 (current + off)) = false then
      Except.error (ChainError.invalidAtStep i)
    else
      specChainWalk io (i + 1) (io.readPOINTER2 (current + off)) rest

/-- The specification's pointer-chain contract, as a function. -/
def specPointerChain (io : LinuxChainIO) (base size : Nat)
    (offsets : List Nat) : Except ChainError (Option ProcessBlob) :=
  match offsets with
  | [] =>
    match io.readBlob base size with
    | Except.error e => Except.error (ChainError.finalRead e)
    | Except.ok blob => Except.ok blob
  | _ :: _ =>
    match specChainWalk io 0 base (frontOffsets offsets) with
    | Except.error e => Except.error e
    | Except.ok fin =>
      match io.readBlob (fin + lastOffset offsets) size with
      | Except.error e => Except.error (ChainError.finalRead e)
      | Except.ok blob => Except.ok blob

theorem linuxChainLoop_eq (io : LinuxChainIO) (size : Nat) :
    ∀ (rest : List Nat) (i current off : Nat),
      linuxChainLoop io size i current off rest =
        (match specChainWalk io i current (frontOffsets (off :: rest)) with
         | Except.error e => Except.error e
         | Except.ok fin =>
           match io.readBlob (fin + lastOffset (off :: rest)) size with
           | Except.error e => Except.error (ChainError.finalRead e)
           | Except.ok blob => Except.ok blob) := by
  intro rest
  induction rest with
  | nil =>
    intro i current off
    simp only [linuxChainLoop, frontOffsets, lastOffset, specChainWalk]
  | cons off2 rest2 ih =>
    intro i current off
    simp only [linuxChainLoop, frontOffsets, lastOffset, specChainWalk]
    by_cases h0 : io.readPOINTER2 (current + off) = 0
    · simp [h0]
    · by_cases hv : io.isValidAddress (io.readPOINTER2 (current + off)) = false
      · simp [h0, hv]
      · rw [if_neg h0, if_neg hv, if_neg h0, if_neg hv]
        exact ih (i + 1) (io.readPOINTER2 (current + off)) off2

/-- C1 (amended, Linux side): the live Linux ReadPointerChain implements
the specification's chain contract exactly, for every backend behaviour:
each offset but the last is dereferenced at `current + offsets[i]` (a zero
pointer or an unmapped pointer fails with an error naming step i), and the
last offset is only added to the final pointer before the `size`-byte
read. -/
theorem c1_linux_chain_matches_spec (io : LinuxChainIO) (base size : Nat)
    (offsets : List Nat) :
    linuxReadPointerChain io base size offsets =
      specPointerChain io base size offsets := by
  cases offsets with
  | nil => rfl
  | cons off rest =>
    rw [show linuxReadPointerChain io base size (off :: rest) =
        linuxChainLoop io size 0 base off rest from rfl]
    rw [linuxChainLoop_eq io size rest 0 base off]
    rfl

/-! The captured-blob implementation
(src/process_blob/read_pointer_chain.go) walks differently: at EVERY
offset, the last included, it dereferences the pointer stored at the
current address and then adds the offset to the value read. -/

/-- The loop of ProcessBlob.ReadPointerChain:
`ptr := ReadPOINTER(currentAddr); currentAddr = ptr + offset`. -/
def blobChainLoop (p : ProcessBlob) :
    Nat → Nat → List Nat → Except String Nat
  | _, current, [] => Except.ok current
  | i, current, off :: rest =>
    match blobReadPOINTER p current with
    | Except.error _ => Except.error "failed to read pointer at level"
    | Except.ok ptr => blobChainLoop p (i + 1) (ptr + off) rest

/-- ProcessBlob.ReadPointerChain. -/
def blobReadPointerChain (p : ProcessBlob) (base size : Nat)
    (offsets : List Nat) : Except String (Option ProcessBlob) :=
  match blobChainLoop p 0 base offsets with
  | Except.error e => Except.error e
  | Except.ok fin => blobReadBlob p fin size

/-- C1 counterexample: on a 16-byte blob based at 0x1000 whose first 8
bytes hold the pointer 0x1004, the chain (base 0x1000, size 4, offsets
[8]) must — per the claim — read 4 bytes at 0x1000 + 8 = 0x1008 without
any dereference; the ProcessBlob implementation instead dereferences the
base (obtaining 0x1004), adds the final offset and reads at 0x100C,
returning a different view. -/
theorem c1_blob_chain_counterexample :
    blobReadPointerChain
        ⟨0x1000, [4, 16, 0, 0, 0, 0, 0, 0, 1, 2, 3, 4, 5, 6, 7, 8]⟩
        0x1000 4 [8] =
      Except.ok (some ⟨0x100C, [5, 6, 7, 8]⟩) ∧
    blobReadBlob ⟨0x1000, [4, 16, 0, 0, 0, 0, 0, 0, 1, 2, 3, 4, 5, 6, 7, 8]⟩
        (0x1000 + 8) 4 =
      Except.ok (some ⟨0x1008, [1, 2, 3, 4]⟩) ∧
    (0x100C : Nat) ≠ 0x1000 + 8 := by
  refine ⟨by rfl, by rfl, by norm_num⟩

/-! ## C9: parsing the Linux memory-map text

LinuxMemoryMap.ReadMemoryMap
(src/process/memory_map/memory_map_linux.go) is embedded over the list of
input lines (each a list of characters).  The result is `none` when the Go
code panics while handling a line, and `some map` otherwise. -/

/-- strconv hex digit (ParseUint with base 16 accepts both cases). -/
def hexDigitVal (c : Char) : Option Nat :=
  if '0' ≤ c ∧ c ≤ '9' then some (c.toNat - '0'.toNat)
  else if 'a' ≤ c ∧ c ≤ 'f' then some (c.toNat - 'a'.toNat + 10)
  else if 'A' ≤ c ∧ c ≤ 'F' then some (c.toNat - 'A'.toNat + 10)
  else none

def parseHexU64Aux : List Char → Nat → Option Nat
  | [], acc => some acc
  | c :: cs, acc =>
    match hexDigitVal c with
    | none => none
    | some d => parseHexU64Aux cs (acc * 16 + d)

/-- strconv.ParseUint(s, 16, 64): digits only, non-empty, within 64 bits. -/
def parseHexU64 (cs : List Char) : Option Nat :=
  if cs.isEmpty then none
  else
    match parseHexU64Aux cs 0 with
    | none => none
    | some v => if v < u64Mod then some v else none

def goFieldsAux : List Char → List Char → List (List Char)
  | [], acc => if acc.isEmpty then [] else [acc.reverse]
  | c :: rest, acc =>
    if c = ' ' ∨ c = '\t' then
      if acc.isEmpty then goFieldsAux rest []
      else acc.reverse :: goFieldsAux rest []
    else goFieldsAux rest (c :: acc)

/-- strings.Fields: split on whitespace runs, dropping empty pieces. -/
def goFields (cs : List Char) : List (List Char) := goFieldsAux cs []

def splitOnDashAux : List Char → List Char → List (List Char)
  | [], acc => [acc.reverse]
  | c :: rest, acc =>
    if c = '-' then acc.reverse :: splitOnDashAux rest []
    else splitOnDashAux rest (c :: acc)

/-- strings.Split(s, "-"). -/
def splitOnDash (cs : List Char) : List (List Char) := splitOnDashAux cs []

/-- One iteration of the ReadMemoryMap scanner loop.  `none` is a panic,
`some none` a silently discarded line, `some (some item)` a parsed region.
The size is the wrapped uint64 difference `end - start`. -/
def parseMapsLine (line : List Char) : Option (Option MemoryMapItem) :=
  let fields := goFields line
  if fields.length < 1 then some none
  else
    let addrRange := splitOnDash (fields.getD 0 [])
    if addrRange.length ≠ 2 then some none
    else
      match parseHexU64 (addrRange.getD 0 []) with
      | none => some none
      | some startAddr =>
        match parseHexU64 (addrRange.getD 1 []) with
        | none => some none
        | some endAddr =>
          match fields[1]? with
          | none => none
          | some perms =>
            some (some ⟨startAddr, (u64Mod + endAddr - startAddr) % u64Mod,
              String.mk perms⟩)

/-- LinuxMemoryMap.ReadMemoryMap over a list of input lines. -/
def readMemoryMapLines : List (List Char) → Option (List MemoryMapItem)
  | [] => some []
  | line :: rest =>
    match parseMapsLine line with
    | none => none
    | some none => readMemoryMapLines rest
    | some (some r) =>
      match readMemoryMapLines rest with
      | none => none
      | some items => some (r :: items)

/-- C9: a line holding a well-formed address range and nothing else is NOT
discarded silently: both hex bounds parse, and the parser then indexes
`fields[1]` having only checked `len(fields) < 1`, an index-out-of-range
panic (modelled as `none`).  The claim that parsing is total and discards
malformed lines silently is right about the intent; the code's guard is
off by one. -/
theorem c9_parse_panics_on_missing_perms :
    readMemoryMapLines [("00400000-0040b000".data)] = none := by rfl

/-! ## POD materialiser (pod.ReadStruct, src/process_find.go part; pod.go)

ReadStruct walks a record type's fields by reflection.  The embedding
abstracts each field to its byte offset, width, and kind: a plain scalar,
or a Go pointer field carrying a pod tag.  The tag is abstracted to the
three substrings ReadStruct and pod.go test it for
(`strings.Contains(tag, "valid_pointer")`, `"err_failure"`, `"required"`).
Inline nested-struct fields are outside the modelled schema subset. -/

/-- Which of the recognised substrings a field's pod tag contains. -/
structure PodTag where
  validPointer : Bool
  errFailure : Bool
  requiredFlag : Bool
  deriving Repr, DecidableEq

/-- A field of a record schema: scalar, or pointer with the pointee's
schema (byte size and fields) inline. -/
inductive SField where
  | prim (offset width : Nat)
  | ptr (offset width : Nat) (tag : PodTag) (pointeeSize : Nat)
      (pointeeFields : List SField)

/-- A decoded field value: scalar, nil pointer, or materialised pointee. -/
inductive PodValue where
  | int (n : Nat)
  | ptrNull
  | ptrObj (addr : Nat) (pointee : List PodValue)

/-- reflect.New: the zero value of a field / record. -/
def zeroValue : SField → PodValue
  | SField.prim _ _ => PodValue.int 0
  | SField.ptr _ _ _ _ _ => PodValue.ptrNull

def zeroRecord (fields : List SField) : List PodValue := fields.map zeroValue

/-- The two backend methods ReadStruct calls. -/
structure PodBackend where
  readMemoryFn : Nat → Nat → Except String (List Nat)
  isValidAddressFn : Nat → Bool

inductive PodError where
  | readFailed (msg : String)
  | fieldOutOfBounds (idx : Nat)
  | invalidPointer (idx : Nat)
  | pointeeFailed (idx : Nat)
  | fuelExhausted
  deriving Repr, DecidableEq

/-- The field loop of ReadStruct.  `record` is the caller's record, which
the Go code mutates in place field by field (`field.Set...`); an error
return hands back the record as mutated so far.  `recur` performs the
recursive ReadStruct call on a pointee (it receives the pointee's byte
size, fields, address, and fresh zero record). -/
def runFieldsWith
    (recur : Nat → List SField → Nat → List PodValue →
      List PodValue × Option PodError)
    (b : PodBackend) (data : List Nat) :
    List SField → List PodValue → Nat → List PodValue × Option PodError
  | [], record, _ => (record, none)
  | SField.prim off w :: rest, record, i =>
    if off + w > data.length then (record, some (PodError.fieldOutOfBounds i))
    else
      runFieldsWith recur b data rest
        (record.set i (PodValue.int (leNat ((data.drop off).take w)))) (i + 1)
  | SField.ptr off w tag psize pfields :: rest, record, i =>
    if off + w > data.length then (record, some (PodError.fieldOutOfBounds i))
    else if w = 4 ∨ w = 8 then
      if tag.validPointer then
        if leNat ((data.drop off).take w) = 0 then
          runFieldsWith recur b data rest
            (record.set i PodValue.ptrNull) (i + 1)
        else if b.isValidAddressFn (leNat ((data.drop off).take w)) = false then
          if tag.errFailure then (record, some (PodError.invalidPointer i))
          else
            runFieldsWith recur b data rest
              (record.set i PodValue.ptrNull) (i + 1)
        else
          match recur psize pfields (leNat ((data.drop off).take w))
              (zeroRecord pfields) with
          | (_, some _) =>
            if tag.errFailure then (record, some (PodError.pointeeFailed i))
            else
              runFieldsWith recur b data rest
                (record.set i PodValue.ptrNull) (i + 1)
          | (pvals, none) =>
            runFieldsWith recur b data rest
              (record.set i
                (PodValue.ptrObj (leNat ((data.drop off).take w)) pvals))
              (i + 1)
      else
        -- a Go pointer field without valid_pointer: left untouched
        runFieldsWith recur b data rest record (i + 1)
    else
      -- unknown pointer size: continue
      runFieldsWith recur b data rest record (i + 1)

/-- pod.ReadStruct: read the record's bytes, then run the field loop.
Fuel bounds the pointee recursion depth (the Go code has none and can
recurse through pointers indefinitely); every run below uses ample fuel. -/
def readStructGo (b : PodBackend) :
    Nat → Nat → List SField → Nat → List PodValue →
      List PodValue × Option PodError
  | 0, _, _, _, record => (record, some PodError.fuelExhausted)
  | fuel + 1, byteSize, fields, addr, record =>
    match b.readMemoryFn addr byteSize with
    | Except.error e => (record, some (PodError.readFailed e))
    | Except.ok data => runFieldsWith (readStructGo b fuel) b data fields record 0

/-! ## C5: pointer-field validation during materialisation -/

/-- C5 counterexample: a `valid_pointer,required`-tagged field whose
decoded address 0xDEAD is non-null and invalid per the backend's map.  The
claim says the `required` tag causes an error; ReadStruct only tests the
tag for `err_failure`, so the field is silently cleared and
materialisation succeeds with no error at all. -/
theorem c5_required_invalid_pointer_counterexample :
    readStructGo
        ⟨fun _ _ => Except.ok [0xAD, 0xDE, 0, 0, 0, 0, 0, 0], fun _ => false⟩
        2 8 [SField.ptr 0 8 ⟨true, false, true⟩ 0 []] 0x5000
        [PodValue.ptrNull] =
      ([PodValue.ptrNull], none) ∧
    PodTag.requiredFlag ⟨true, false, true⟩ = true := ⟨rfl, rfl⟩

/-- C5 (amended): for a valid_pointer-tagged 8-byte pointer field in
bounds, ReadStruct behaves as follows — a zero decoded address clears the
field and continues; a non-zero address that is invalid per the backend's
map returns an invalid-pointer error when the tag contains `err_failure`
and otherwise clears the field and continues, the `required` tag playing
no part.  (In pod.go's validatePointerField, `required` only concerns
NULL pointers, and only the strict mode returns errors.) -/
theorem c5_pointer_field_validation
    (recur : Nat → List SField → Nat → List PodValue →
      List PodValue × Option PodError)
    (b : PodBackend) (data : List Nat) (off : Nat) (tag : PodTag)
    (psize : Nat) (pfields : List SField) (rest : List SField)
    (record : List PodValue) (i : Nat)
    (hbound : off + 8 ≤ data.length) (hvp : tag.validPointer = true) :
    (leNat ((data.drop off).take 8) = 0 →
      runFieldsWith recur b data
          (SField.ptr off 8 tag psize pfields :: rest) record i =
        runFieldsWith recur b data rest
          (record.set i PodValue.ptrNull) (i + 1)) ∧
    (leNat ((data.drop off).take 8) ≠ 0 →
      b.isValidAddressFn (leNat ((data.drop off).take 8)) = false →
      (tag.errFailure = true →
        runFieldsWith recur b data
            (SField.ptr off 8 tag psize pfields :: rest) record i =
          (record, some (PodError.invalidPointer i))) ∧
      (tag.errFailure = false →
        runFieldsWith recur b data
            (SField.ptr off 8 tag psize pfields :: rest) record i =
          runFieldsWith recur b data rest
            (record.set i PodValue.ptrNull) (i + 1))) := by
  constructor
  · intro h0
    rw [runFieldsWith]
    rw [if_neg (by omega), if_pos (by norm_num), if_pos hvp, if_pos h0]
  · intro h0 hinv
    constructor
    · intro hef
      rw [runFieldsWith]
      rw [if_neg (by omega), if_pos (by norm_num), if_pos hvp, if_neg h0,
        if_pos hinv, if_pos hef]
    · intro hef
      rw [runFieldsWith]
      rw [if_neg (by omega), if_pos (by norm_num), if_pos hvp, if_neg h0,
        if_pos hinv, if_neg (by rw [hef]; exact Bool.false_ne_true)]

/-- Witness for c5: a concrete invalid non-null pointer field, both with
and without err_failure in the tag, and a zero pointer. -/
theorem c5_pointer_field_validation_witness :
    runFieldsWith (fun _ _ _ r => (r, none))
        ⟨fun _ _ => Except.ok [], fun _ => false⟩
        [0xAD, 0xDE, 0, 0, 0, 0, 0, 0]
        [SField.ptr 0 8 ⟨true, true, false⟩ 0 []] [PodValue.ptrNull] 0 =
      ([PodValue.ptrNull], some (PodError.invalidPointer 0)) := by
  have h := c5_pointer_field_validation (fun _ _ _ r => (r, none))
    ⟨fun _ _ => Except.ok [], fun _ => false⟩
    [0xAD, 0xDE, 0, 0, 0, 0, 0, 0] 0 ⟨true, true, false⟩ 0 [] []
    [PodValue.ptrNull] 0 (by norm_num) rfl
  exact (h.2 (by decide) rfl).1 rfl

/-! ## C6: no half-initialised record -/

/-- C6 counterexample: a two-field record whose first scalar field decodes
to 1 and whose second field is an err_failure pointer at an invalid
address.  ReadStruct returns an error AND the caller's record already
holds the decoded first field — a half-initialised record, contradicting
the claim that an erroring materialisation leaves the record untouched. -/
theorem c6_partial_record_counterexample :
    readStructGo
        ⟨fun _ _ => Except.ok [1, 0, 0, 0, 0xAD, 0x0B, 0, 0, 0, 0, 0, 0],
          fun _ => false⟩
        2 12 [SField.prim 0 4, SField.ptr 4 8 ⟨true, true, false⟩ 0 []]
        0x5000
        (zeroRecord [SField.prim 0 4, SField.ptr 4 8 ⟨true, true, false⟩ 0 []]) =
      ([PodValue.int 1, PodValue.ptrNull], some (PodError.invalidPointer 1)) ∧
    PodValue.int 1 ≠ PodValue.int 0 := by
  refine ⟨rfl, ?_⟩
  intro h
  simp at h

/-! pod.ReadBlob (src/pod/pod.go) decodes into a local temporary and
returns it by value: its error paths return the zero value of T.  Its
fields are scalar (uint64) pod-tagged fields; `typeHasPointers` abstracts
the recursive reflect walk hasPointers[T] over the Go type. -/

structure PodBlobField where
  offset : Nat
  width : Nat
  isValidPointerTag : Bool
  isRequired : Bool
  deriving Repr, DecidableEq

structure PodBlobSchema where
  byteSize : Nat
  typeHasPointers : Bool
  fields : List PodBlobField
  deriving Repr

def zeroBlobRecord (schema : PodBlobSchema) : List Nat :=
  schema.fields.map (fun _ => 0)

/-- validatePointerField in the non-strict mode used by ReadBlob: a
NULL value is left alone (required or not), an invalid non-null value is
cleaned to 0, and nothing ever errors. -/
def cleanField (isValid : Nat → Bool) (f : PodBlobField) (v : Nat) : Nat :=
  if f.isValidPointerTag then
    if v = 0 then v
    else if isValid v = false then 0
    else v
  else v

/-- pod.ReadBlob: POD guard, size check, raw copy into the temporary,
pointer cleaning (whose error Go ignores), then return by value paired
with the error, Go-style. -/
def podReadBlob (isValid : Nat → Bool) (schema : PodBlobSchema)
    (data : List Nat) : List Nat × Option String :=
  if schema.typeHasPointers then
    (zeroBlobRecord schema, some "T contains pointers; not POD-safe")
  else if data.length < schema.byteSize then
    (zeroBlobRecord schema, some "buffer too small")
  else
    (schema.fields.map (fun f =>
      cleanField isValid f (leNat ((data.drop f.offset).take f.width))), none)

/-- C6 (amended): the pod.ReadBlob / ReadT materialisation path is atomic:
whenever it returns an error, the value handed to the caller is the
schema's zero record, never a partially decoded one.  (ReadStruct, by
contrast, mutates the caller's record in place and can error after
decoding earlier fields, as the counterexample shows.) -/
theorem c6_pod_readblob_atomic (isValid : Nat → Bool)
    (schema : PodBlobSchema) (data : List Nat) (e : String)
    (h : (podReadBlob isValid schema data).2 = some e) :
    (podReadBlob isValid schema data).1 = zeroBlobRecord schema := by
  unfold podReadBlob at h ⊢
  by_cases h1 : schema.typeHasPointers
  · simp [h1]
  · by_cases h2 : data.length < schema.byteSize
    · simp [h1, h2]
    · simp [h1, h2] at h

/-- Witness for c6: the POD guard trips and the zero record is returned. -/
theorem c6_pod_readblob_atomic_witness :
    (podReadBlob (fun _ => true) ⟨8, true, [⟨0, 8, false, false⟩]⟩ []).1 =
      zeroBlobRecord ⟨8, true, [⟨0, 8, false, false⟩]⟩ :=
  c6_pod_readblob_atomic (fun _ => true) ⟨8, true, [⟨0, 8, false, false⟩]⟩ []
    "T contains pointers; not POD-safe" rfl

/-! ## C2: save then load serves back the saved bytes

The snapshot blob files are named `blob_0x<hex>_<dec>.bin`
(fmt.Sprintf("blob_0x%x_%d.bin", region.Address, region.Size)) by both
LinuxProcess.Save and ProcessDump.Load; the rendering of %x (lowercase,
unpadded) and %d is embedded below, with an inverse to establish that
distinct (address, size) pairs give distinct file names. -/

/-- One lowercase hex digit, as fmt's %x writes it. -/
def hexDigitChar (d : Nat) : Char :=
  if d < 10 then Char.ofNat (48 + d) else Char.ofNat (87 + d)

/-- fmt %x: lowercase hex without padding ("0" for zero). -/
def toHexChars (n : Nat) : List Char :=
  if h : n < 16 then [hexDigitChar n]
  else toHexChars (n / 16) ++ [hexDigitChar (n % 16)]
termination_by n
decreasing_by exact Nat.div_lt_self (by omega) (by omega)

def hexCharVal (c : Char) : Nat :=
  if c.toNat ≥ 87 then c.toNat - 87 else c.toNat - 48

def fromHexChars (cs : List Char) : Nat :=
  cs.foldl (fun acc c => acc * 16 + hexCharVal c) 0

def decDigitChar (d : Nat) : Char := Char.ofNat (48 + d)

/-- fmt %d. -/
def toDecChars (n : Nat) : List Char :=
  if h : n < 10 then [decDigitChar n]
  else toDecChars (n / 10) ++ [decDigitChar (n % 10)]
termination_by n
decreasing_by exact Nat.div_lt_self (by omega) (by omega)

def fromDecChars (cs : List Char) : Nat :=
  cs.foldl (fun acc c => acc * 10 + (c.toNat - 48)) 0

theorem hexCharVal_hexDigitChar (d : Nat) (hd : d < 16) :
    hexCharVal (hexDigitChar d) = d := by
  interval_cases d <;> rfl

theorem hexDigitChar_notMarker (d : Nat) (hd : d < 16) :
    hexDigitChar d ≠ '_' := by
  interval_cases d <;> decide

theorem decDigitChar_val (d : Nat) (hd : d < 10) :
    (decDigitChar d).toNat - 48 = d := by
  interval_cases d <;> rfl

theorem decDigitChar_notMarker (d : Nat) (hd : d < 10) :
    decDigitChar d ≠ '_' ∧ decDigitChar d ≠ '.' := by
  interval_cases d <;> exact ⟨by decide, by decide⟩

theorem fromHex_toHex (n : Nat) : fromHexChars (toHexChars n) = n := by
  induction n using Nat.strong_induction_on with
  | _ n ih =>
    rw [toHexChars]
    by_cases h : n < 16
    · rw [dif_pos h]
      simp [fromHexChars, hexCharVal_hexDigitChar n h]
    · rw [dif_neg h]
      have hstep : fromHexChars (toHexChars (n / 16) ++ [hexDigitChar (n % 16)]) =
          fromHexChars (toHexChars (n / 16)) * 16 +
            hexCharVal (hexDigitChar (n % 16)) := by
        simp [fromHexChars, List.foldl_append]
      rw [hstep, ih (n / 16) (Nat.div_lt_self (by omega) (by omega)),
        hexCharVal_hexDigitChar _ (Nat.mod_lt _ (by omega))]
      omega

theorem fromDec_toDec (n : Nat) : fromDecChars (toDecChars n) = n := by
  induction n using Nat.strong_induction_on with
  | _ n ih =>
    rw [toDecChars]
    by_cases h : n < 10
    · rw [dif_pos h]
      simp [fromDecChars, decDigitChar_val n h]
    · rw [dif_neg h]
      have hstep : fromDecChars (toDecChars (n / 10) ++ [decDigitChar (n % 10)]) =
          fromDecChars (toDecChars (n / 10)) * 10 +
            ((decDigitChar (n % 10)).toNat - 48) := by
        simp [fromDecChars, List.foldl_append]
      rw [hstep, ih (n / 10) (Nat.div_lt_self (by omega) (by omega)),
        decDigitChar_val _ (Nat.mod_lt _ (by omega))]
      omega

theorem toHexChars_inj {a b : Nat} (h : toHexChars a = toHexChars b) : a = b := by
  have ha := fromHex_toHex a
  rw [h, fromHex_toHex b] at ha
  omega

theorem toDecChars_inj {a b : Nat} (h : toDecChars a = toDecChars b) : a = b := by
  have ha := fromDec_toDec a
  rw [h, fromDec_toDec b] at ha
  omega

theorem toHexChars_notMarker (n : Nat) : ∀ c ∈ toHexChars n, c ≠ '_' := by
  induction n using Nat.strong_induction_on with
  | _ n ih =>
    rw [toHexChars]
    by_cases h : n < 16
    · rw [dif_pos h]
      intro c hc
      rw [List.mem_singleton] at hc
      subst hc
      exact hexDigitChar_notMarker n h
    · rw [dif_neg h]
      intro c hc
      rcases List.mem_append.1 hc with hc | hc
      · exact ih (n / 16) (Nat.div_lt_self (by omega) (by omega)) c hc
      · rw [List.mem_singleton] at hc
        subst hc
        exact hexDigitChar_notMarker _ (Nat.mod_lt _ (by omega))

theorem toDecChars_notMarker (n : Nat) :
    ∀ c ∈ toDecChars n, c ≠ '_' ∧ c ≠ '.' := by
  induction n using Nat.strong_induction_on with
  | _ n ih =>
    rw [toDecChars]
    by_cases h : n < 10
    · rw [dif_pos h]
      intro c hc
      rw [List.mem_singleton] at hc
      subst hc
      exact decDigitChar_notMarker n h
    · rw [dif_neg h]
      intro c hc
      rcases List.mem_append.1 hc with hc | hc
      · exact ih (n / 10) (Nat.div_lt_self (by omega) (by omega)) c hc
      · rw [List.mem_singleton] at hc
        subst hc
        exact decDigitChar_notMarker _ (Nat.mod_lt _ (by omega))

theorem splitAtMarker (m : Char) :
    ∀ (a1 : List Char) (b1 : List Char) (a2 : List Char) (b2 : List Char),
      (∀ c ∈ a1, c ≠ m) → (∀ c ∈ a2, c ≠ m) →
      a1 ++ m :: b1 = a2 ++ m :: b2 → a1 = a2 ∧ b1 = b2 := by
  intro a1
  induction a1 with
  | nil =>
    intro b1 a2 b2 _ h2 heq
    cases a2 with
    | nil =>
      simp only [List.nil_append, List.cons.injEq] at heq
      exact ⟨rfl, heq.2⟩
    | cons x xs =>
      simp only [List.nil_append, List.cons_append, List.cons.injEq] at heq
      exact absurd heq.1.symm (h2 x (by simp))
  | cons y ys ih =>
    intro b1 a2 b2 h1 h2 heq
    cases a2 with
    | nil =>
      simp only [List.cons_append, List.nil_append, List.cons.injEq] at heq
      exact absurd heq.1 (h1 y (by simp))
    | cons x xs =>
      simp only [List.cons_append, List.cons.injEq] at heq
      obtain ⟨hyx, hrest⟩ := heq
      obtain ⟨hys, hb⟩ := ih b1 xs b2 (fun c hc => h1 c (by simp [hc]))
        (fun c hc => h2 c (by simp [hc])) hrest
      exact ⟨by rw [hyx, hys], hb⟩

/-- The blob file name written by Save and looked up by Load:
blob_0x<lowercase hex address>_<decimal size>.bin. -/
def blobFileName (a s : Nat) : List Char :=
  'b' :: 'l' :: 'o' :: 'b' :: '_' :: '0' :: 'x' ::
    (toHexChars a ++ '_' :: (toDecChars s ++ ['.', 'b', 'i', 'n']))

theorem blobFileName_inj {a1 s1 a2 s2 : Nat}
    (h : blobFileName a1 s1 = blobFileName a2 s2) : a1 = a2 ∧ s1 = s2 := by
  unfold blobFileName at h
  simp only [List.cons.injEq, true_and] at h
  obtain ⟨hhex, htail⟩ := splitAtMarker '_' (toHexChars a1) _ (toHexChars a2) _
    (toHexChars_notMarker a1) (toHexChars_notMarker a2) h
  have hdot : toDecChars s1 ++ '.' :: ['b', 'i', 'n'] =
      toDecChars s2 ++ '.' :: ['b', 'i', 'n'] := htail
  obtain ⟨hdec, -⟩ := splitAtMarker '.' (toDecChars s1) _ (toDecChars s2) _
    (fun c hc => (toDecChars_notMarker s1 c hc).2)
    (fun c hc => (toDecChars_notMarker s2 c hc).2) hdot
  exact ⟨toHexChars_inj hhex, toDecChars_inj hdec⟩

/-- The live backend at save time: its (sorted) memory map, refreshed by
Save via UpdateMemoryMap, and the target's memory contents.  The
process_vm_readv syscall is modelled as a deterministic full read of
`mem`. -/
structure LinuxState where
  mm : List MemoryMapItem
  mem : Nat → Nat

/-- LinuxProcess.ReadMemory (process_vm_readv.go): gate through
isValidAddressInternal, then read. -/
def linuxReadMemory (st : LinuxState) (addr size : Nat) :
    Option (List Nat) :=
  if linuxIsValidAddressInternal st.mm addr then
    some (memBytes st.mem addr size)
  else none

/-- The on-disk snapshot directory: the persisted memory map
(process_memory_map.json) and the blob files by name. -/
structure SnapshotDir where
  mapJson : List MemoryMapItem
  files : List (List Char × List Nat)

/-- The region loop of LinuxProcess.Save (process_save.go): skip
non-readable regions, skip regions over 100 MiB, skip regions whose read
fails, write the rest to `blob_0x<hex>_<dec>.bin`. -/
def saveFiles (st : LinuxState) : List (List Char × List Nat) :=
  st.mm.filterMap (fun region =>
    if isReadablePerms region.perms = false then none
    else if region.size > 100 * 1024 * 1024 then none
    else
      match linuxReadMemory st region.address region.size with
      | none => none
      | some data => some (blobFileName region.address region.size, data))

/-- LinuxProcess.Save: metadata plus the persisted map and region blobs. -/
def processSave (st : LinuxState) : SnapshotDir := ⟨st.mm, saveFiles st⟩

/-- os.ReadFile of a blob file by name. -/
def lookupFile (files : List (List Char × List Nat)) (name : List Char) :
    Option (List Nat) :=
  (files.find? (fun kv => decide (kv.1 = name))).map (fun kv => kv.2)

/-- sort.Slice by Address, as ProcessDump.Load re-sorts the loaded map
(insertion sort; Load only depends on the result being a permutation
ordered by address). -/
def insertByAddress (r : MemoryMapItem) :
    List MemoryMapItem → List MemoryMapItem
  | [] => [r]
  | x :: xs =>
    if r.address < x.address then r :: x :: xs else x :: insertByAddress r xs

def sortByAddress : List MemoryMapItem → List MemoryMapItem
  | [] => []
  | x :: xs => insertByAddress x (sortByAddress xs)

/-- ProcessDump.Load: read the metadata and map, sort the map, then open
each region's `blob_0x<hex>_<dec>.bin` if present (a missing file is a
legal gap). -/
def processLoad (dir : SnapshotDir) : ProcessDump :=
  ⟨0, "", sortByAddress dir.mapJson,
    (sortByAddress dir.mapJson).filterMap (fun region =>
      match lookupFile dir.files (blobFileName region.address region.size) with
      | none => none
      | some data => some (region.address, data))⟩

theorem mem_insertByAddress (r a : MemoryMapItem) (l : List MemoryMapItem) :
    a ∈ insertByAddress r l ↔ a = r ∨ a ∈ l := by
  induction l with
  | nil => simp [insertByAddress]
  | cons x xs ih =>
    by_cases h : r.address < x.address
    · simp [insertByAddress, h]
    · simp only [insertByAddress, if_neg h, List.mem_cons, ih]
      tauto

theorem mem_sortByAddress (a : MemoryMapItem) (l : List MemoryMapItem) :
    a ∈ sortByAddress l ↔ a ∈ l := by
  induction l with
  | nil => simp [sortByAddress]
  | cons x xs ih =>
    simp only [sortByAddress, mem_insertByAddress, List.mem_cons, ih]

theorem lookupFile_eq_some (files : List (List Char × List Nat))
    (name : List Char) (v : List Nat)
    (hmem : ∃ kv ∈ files, kv.1 = name)
    (hval : ∀ kv ∈ files, kv.1 = name → kv.2 = v) :
    lookupFile files name = some v := by
  induction files with
  | nil =>
    obtain ⟨kv, hkv, -⟩ := hmem
    simp at hkv
  | cons x xs ih =>
    by_cases hx : x.1 = name
    · unfold lookupFile
      have hx2 : decide (x.1 = name) = true := by simp [hx]
      rw [List.find?_cons, hx2]
      simp [hval x (by simp) hx]
    · unfold lookupFile
      have hx2 : decide (x.1 = name) = false := by simp [hx]
      rw [List.find?_cons, hx2]
      have hmem2 : ∃ kv ∈ xs, kv.1 = name := by
        obtain ⟨kv, hkv, hkv1⟩ := hmem
        rcases List.mem_cons.1 hkv with rfl | h
        · exact absurd hkv1 hx
        · exact ⟨kv, h, hkv1⟩
      exact ih hmem2 (fun kv hkv h1 => hval kv (by simp [hkv]) h1)

theorem lookupBlob_eq_some (blobs : List (Nat × List Nat)) (a : Nat)
    (v : List Nat)
    (hmem : ∃ kv ∈ blobs, kv.1 = a)
    (hval : ∀ kv ∈ blobs, kv.1 = a → kv.2 = v) :
    lookupBlob blobs a = some v := by
  induction blobs with
  | nil =>
    obtain ⟨kv, hkv, -⟩ := hmem
    simp at hkv
  | cons x xs ih =>
    by_cases hx : x.1 = a
    · unfold lookupBlob
      have hx2 : (x.1 == a) = true := by simp [hx]
      rw [List.find?_cons, hx2]
      simp [hval x (by simp) hx]
    · unfold lookupBlob
      have hx2 : (x.1 == a) = false := by simp [hx]
      rw [List.find?_cons, hx2]
      have hmem2 : ∃ kv ∈ xs, kv.1 = a := by
        obtain ⟨kv, hkv, hkv1⟩ := hmem
        rcases List.mem_cons.1 hkv with rfl | h
        · exact absurd hkv1 hx
        · exact ⟨kv, h, hkv1⟩
      exact ih hmem2 (fun kv hkv h1 => hval kv (by simp [hkv]) h1)

theorem getRegion_eq_some_unique (mm : List MemoryMapItem)
    (R : MemoryMapItem) (addr : Nat) (hmem : R ∈ mm)
    (hcov : covers R addr = true)
    (huniq : ∀ r ∈ mm, covers r addr = true → r = R) :
    getMemoryRegionForAddress addr mm = some R := by
  induction mm with
  | nil => simp at hmem
  | cons x xs ih =>
    by_cases hx : covers x addr = true
    · have hxR : x = R := huniq x (by simp) hx
      subst hxR
      unfold getMemoryRegionForAddress
      have hx2 : (decide (x.address ≤ addr) && decide (addr < regionEnd x)) =
          true := hx
      rw [List.find?_cons, hx2]
    · rcases List.mem_cons.1 hmem with rfl | hmem2
      · exact absurd hcov hx
      · unfold getMemoryRegionForAddress
        have hx3 : covers x addr = false := by
          cases hcv : covers x addr with
          | true => exact absurd hcv hx
          | false => rfl
        have hx2 : (decide (x.address ≤ addr) && decide (addr < regionEnd x)) =
            false := hx3
        rw [List.find?_cons, hx2]
        exact ih hmem2 (fun r hr hc => huniq r (by simp [hr]) hc)

theorem memBytes_length (mem : Nat → Nat) (a n : Nat) :
    (memBytes mem a n).length = n := by
  simp [memBytes]

theorem memBytes_slice (mem : Nat → Nat) (a off sz n : Nat)
    (h : off + sz ≤ n) :
    ((memBytes mem a n).drop off).take sz = memBytes mem (a + off) sz := by
  apply List.ext_getElem
  · simp [memBytes]
    omega
  · intro i h1 h2
    simp only [memBytes, List.getElem_take, List.getElem_drop,
      List.getElem_map, List.getElem_range]
    congr 1
    omega

/-- C2: saving a process and loading the resulting directory yields a
backend whose ReadMemory returns exactly the bytes the live backend
serves, for every window [addr, addr+size) with size ≥ 1 lying inside a
region whose blob was persisted (readable, at most 100 MiB, start address
valid at save time), on a map with pairwise non-overlapping regions of
size ≥ 1 whose ends do not overflow uint64.  In particular the file name
`blob_0x<hex>_<dec>.bin` written by Save is exactly the one Load opens. -/
theorem c2_save_load_roundtrip (st : LinuxState) (R : MemoryMapItem)
    (addr size : Nat)
    (hdisj : ∀ r1 ∈ st.mm, ∀ r2 ∈ st.mm, r1 ≠ r2 →
      r1.address + r1.size ≤ r2.address ∨ r2.address + r2.size ≤ r1.address)
    (hszs : ∀ r ∈ st.mm, 1 ≤ r.size)
    (hnw : NoEndWrap st.mm)
    (hR : R ∈ st.mm)
    (hread : isReadablePerms R.perms = true)
    (hbig : R.size ≤ 100 * 1024 * 1024)
    (hvalid : linuxIsValidAddressInternal st.mm R.address = true)
    (haddr : R.address ≤ addr) (hend : addr + size ≤ R.address + R.size)
    (hsz : 1 ≤ size) :
    dumpReadMemory (processLoad (processSave st)) addr size =
      Except.ok (memBytes st.mem addr size) := by
  have hlrR : linuxReadMemory st R.address R.size =
      some (memBytes st.mem R.address R.size) := by
    unfold linuxReadMemory
    rw [if_pos hvalid]
  -- the blob file Save writes for R
  have hfileR : (blobFileName R.address R.size,
      memBytes st.mem R.address R.size) ∈ saveFiles st := by
    apply List.mem_filterMap.2
    refine ⟨R, hR, ?_⟩
    simp only [if_neg (by simp [hread] : ¬ isReadablePerms R.perms = false),
      if_neg (by omega : ¬ R.size > 100 * 1024 * 1024), hlrR]
  -- every file entry carrying R's name carries R's bytes
  have hfileVal : ∀ kv ∈ saveFiles st,
      kv.1 = blobFileName R.address R.size →
      kv.2 = memBytes st.mem R.address R.size := by
    intro kv hkv hk1
    obtain ⟨r, hrmem, hfr⟩ := List.mem_filterMap.1 hkv
    by_cases h1 : isReadablePerms r.perms = false
    · rw [if_pos h1] at hfr
      exact absurd hfr (by simp)
    · rw [if_neg h1] at hfr
      by_cases h2 : r.size > 100 * 1024 * 1024
      · rw [if_pos h2] at hfr
        exact absurd hfr (by simp)
      · rw [if_neg h2] at hfr
        cases hlr : linuxReadMemory st r.address r.size with
        | none =>
          rw [hlr] at hfr
          exact absurd hfr (by simp)
        | some data =>
          rw [hlr] at hfr
          have hkv2 : (blobFileName r.address r.size, data) = kv :=
            Option.some.inj hfr
          rw [← hkv2] at hk1 ⊢
          simp only at hk1 ⊢
          obtain ⟨ha, hs⟩ := blobFileName_inj hk1
          unfold linuxReadMemory at hlr
          by_cases hv : linuxIsValidAddressInternal st.mm r.address = true
          · rw [if_pos hv] at hlr
            have hdata : memBytes st.mem r.address r.size = data :=
              Option.some.inj hlr
            rw [← hdata, ha, hs]
          · rw [if_neg hv] at hlr
            exact absurd hlr (by simp)
  have hlook : lookupFile (saveFiles st) (blobFileName R.address R.size) =
      some (memBytes st.mem R.address R.size) :=
    lookupFile_eq_some _ _ _ ⟨_, hfileR, rfl⟩ hfileVal
  -- membership in the loaded (sorted) map
  have hRL : R ∈ sortByAddress st.mm := (mem_sortByAddress R st.mm).2 hR
  -- the loaded Blobs map holds R's bytes under R's address
  have hblobR : (R.address, memBytes st.mem R.address R.size) ∈
      (processLoad (processSave st)).blobs := by
    apply List.mem_filterMap.2
    refine ⟨R, hRL, ?_⟩
    simp only [processSave, hlook]
  have haddrs : ∀ r1 ∈ st.mm, ∀ r2 ∈ st.mm,
      r1.address = r2.address → r1 = r2 := by
    intro r1 h1 r2 h2 heq
    by_contra hne
    have hd := hdisj r1 h1 r2 h2 hne
    have s1 := hszs r1 h1
    have s2 := hszs r2 h2
    omega
  have hblobVal : ∀ kv ∈ (processLoad (processSave st)).blobs,
      kv.1 = R.address → kv.2 = memBytes st.mem R.address R.size := by
    intro kv hkv hk1
    obtain ⟨r, hrmem, hfr⟩ := List.mem_filterMap.1 hkv
    simp only [processSave] at hfr
    cases hlr : lookupFile (saveFiles st)
        (blobFileName r.address r.size) with
    | none =>
      rw [hlr] at hfr
      exact absurd hfr (by simp)
    | some data =>
      rw [hlr] at hfr
      have hkv2 : (r.address, data) = kv := Option.some.inj hfr
      rw [← hkv2] at hk1 ⊢
      simp only at hk1 ⊢
      have hrmm : r ∈ st.mm := (mem_sortByAddress r st.mm).1 hrmem
      have hrR : r = R := haddrs r hrmm R hR hk1
      subst hrR
      rw [hlook] at hlr
      exact (Option.some.inj hlr).symm
  have hlookB : lookupBlob (processLoad (processSave st)).blobs R.address =
      some (memBytes st.mem R.address R.size) :=
    lookupBlob_eq_some _ _ _ ⟨_, hblobR, rfl⟩ hblobVal
  -- R is the unique region of the loaded map covering addr
  have hre : regionEnd R = R.address + R.size := regionEnd_of_noWrap hnw hR
  have hcovR : covers R addr = true := by
    simp only [covers, hre, Bool.and_eq_true, decide_eq_true_eq]
    exact ⟨haddr, by omega⟩
  have huniqL : ∀ r ∈ sortByAddress st.mm, covers r addr = true → r = R := by
    intro r hrm hc
    have hrmm : r ∈ st.mm := (mem_sortByAddress r st.mm).1 hrm
    have hrend : regionEnd r = r.address + r.size := regionEnd_of_noWrap hnw hrmm
    simp only [covers, hrend, Bool.and_eq_true, decide_eq_true_eq] at hc
    by_contra hne
    have hd := hdisj r hrmm R hR hne
    omega
  have hregion : getMemoryRegionForAddress addr
      (processLoad (processSave st)).memoryMap = some R :=
    getRegion_eq_some_unique _ R addr hRL hcovR huniqL
  -- run ProcessDump.ReadMemory
  unfold dumpReadMemory
  rw [hregion]
  simp only [hlookB]
  rw [if_neg (by rw [memBytes_length]; omega),
    if_neg (by rw [memBytes_length]; omega)]
  rw [memBytes_slice st.mem R.address (addr - R.address) size R.size (by omega)]
  rw [show R.address + (addr - R.address) = addr from by omega]

/-- Witness for c2: one readable 16-byte region at 0x20000 with memory
`a % 256`, read back at 0x20004..0x20008 after save/load. -/
theorem c2_save_load_roundtrip_witness :
    dumpReadMemory
        (processLoad (processSave
          ⟨[⟨0x20000, 0x10, "r--p"⟩], fun a => a % 256⟩))
        0x20004 4 =
      Except.ok (memBytes (fun a => a % 256) 0x20004 4) :=
  c2_save_load_roundtrip ⟨[⟨0x20000, 0x10, "r--p"⟩], fun a => a % 256⟩
    ⟨0x20000, 0x10, "r--p"⟩ 0x20004 4
    (by decide) (by decide) (by intro r hr; fin_cases hr; decide) (by decide)
    (by rfl) (by decide) (by rfl) (by decide) (by decide) (by decide)

end Gomem
